import Mathlib

/-!
Shallow embedding of the library-catalog ingestion engine of the dashboard page
(catalog loader, library entry extractor, item normalizer, preview-bounds
computation, preview hydration cache and the selection/import state machine),
together with proofs of the specification claims about it.

JSON values are modelled exactly as `JSON.parse` can produce them; numbers are
modelled as exact rationals (a parsed JSON number is always finite, so the
`Number.isFinite` guards of the source hold for every `num` value and fail for
every non-number).  Following JavaScript semantics, `typeof value === 'object'`
is true for arrays as well as for plain objects, and a string-keyed property
access on an array yields `undefined` (`none`).  `Date.now()` is passed in as
an explicit `now` parameter.
-/

/-- A parsed JSON value. -/
inductive Json where
  | null : Json
  | bool (b : Bool) : Json
  | num (q : Rat) : Json
  | str (s : String) : Json
  | arr (elems : List Json) : Json
  | obj (fields : List (String × Json)) : Json

/-- First-match lookup in an object's field list (parsed objects carry each key
at most once). -/
def getKV : List (String × Json) → String → Option Json
  | [], _ => none
  | (k, v) :: rest, key => if k = key then some v else getKV rest key

/-- Property access `value[key]`: named fields exist only on objects; on every
other value (including arrays) it yields `undefined` (`none`). -/
def Json.get : Json → String → Option Json
  | .obj fields, key => getKV fields key
  | _, _ => none

/-- `isRecord` from the source: `typeof value === 'object' && value !== null`.
In JavaScript this is also true for arrays. -/
def isRecord : Json → Bool
  | .obj _ => true
  | .arr _ => true
  | _ => false

/-- `Array.isArray`. -/
def isArrayValue : Json → Bool
  | .arr _ => true
  | _ => false

/-- JavaScript string trimming (a host primitive): strip leading and
trailing whitespace.  Modelled structurally over the character list so that it
is executable by the kernel; `Char.isWhitespace` stands for the JavaScript
whitespace class. -/
def jsTrim (s : String) : String :=
  ⟨(((s.data.dropWhile Char.isWhitespace).reverse).dropWhile Char.isWhitespace).reverse⟩

/-- `toFiniteNumber`: a finite number passes through, anything else falls back
(the fallback argument is explicit; the source defaults it to `0`). -/
def toFiniteNumber : Option Json → Rat → Rat
  | some (.num q), _ => q
  | _, fallback => fallback

/-- `extractRecordArray`: the entries of an array value that satisfy
`isRecord`; non-arrays (including `undefined`) give `[]`. -/
def extractRecordArray : Option Json → List Json
  | some (.arr xs) => xs.filter isRecord
  | _ => []

/-- `extractLibraryEntryArray`: the entries of an array value that are records
or arrays. -/
def extractLibraryEntryArray : Option Json → List Json
  | some (.arr xs) => xs.filter fun entry => isRecord entry || isArrayValue entry
  | _ => []

/-- `extractItemElements`: elements directly under `elements`, else under
`data.elements`, else `[]`. -/
def extractItemElements (libraryItem : Json) : List Json :=
  let directElements := extractRecordArray (libraryItem.get "elements")
  if 0 < directElements.length then directElements
  else
    match libraryItem.get "data" with
    | some d => if isRecord d then extractRecordArray (d.get "elements") else []
    | none => []

/-- The fixed priority list of known container keys. -/
def LIBRARY_ARRAY_CANDIDATE_KEYS : List String :=
  ["libraryItems", "items", "library", "libraries", "payload", "content", "data"]

/-- Candidate arrays contributed by one visited node of the breadth-first
traversal: an array node contributes its (filtered) entry list when non-empty;
an object node contributes, for each candidate key holding an array, that
array's (filtered) entry list when non-empty. -/
def nodeCandidates : Json → List (List Json)
  | .arr xs =>
    let libraryEntries := extractLibraryEntryArray (some (.arr xs))
    if 0 < libraryEntries.length then [libraryEntries] else []
  | .obj fields =>
    LIBRARY_ARRAY_CANDIDATE_KEYS.flatMap fun key =>
      match getKV fields key with
      | some value =>
        if isArrayValue value then
          let libraryEntries := extractLibraryEntryArray (some value)
          if 0 < libraryEntries.length then [libraryEntries] else []
        else []
      | none => []
  | _ => []

/-- Child nodes enqueued while visiting one node: an array node enqueues its
filtered entries, an object node enqueues its record/array field values. -/
def nodeChildren : Json → List Json
  | .arr xs => extractLibraryEntryArray (some (.arr xs))
  | .obj fields => (fields.map Prod.snd).filter fun v => isRecord v || isArrayValue v
  | _ => []

/-- The FIFO queue of `extractCandidateLibraryArrays` processes nodes in level
order, so the accumulated candidate list is the concatenation of the per-level
candidate lists.  `fuel` counts the remaining levels; the source skips nodes of
depth `> 5`, i.e. it processes levels `0..5`. -/
def bfsCandidates : List Json → Nat → List (List Json)
  | _, 0 => []
  | nodes, fuel + 1 =>
    nodes.flatMap nodeCandidates ++ bfsCandidates (nodes.flatMap nodeChildren) fuel

/-- `extractCandidateLibraryArrays`: depth-bounded breadth-first traversal. -/
def extractCandidateLibraryArrays (parsed : Json) : List (List Json) :=
  bfsCandidates [parsed] 6

/-- JavaScript object-literal update `{ ...fields, key: value }` for one key:
a present key keeps its position and gets the new value, an absent key is
appended. -/
def setField (fields : List (String × Json)) (key : String) (value : Json) :
    List (String × Json) :=
  if fields.any fun kv => kv.1 = key then
    fields.map fun kv => if kv.1 = key then (key, value) else kv
  else fields ++ [(key, value)]

/-- The own enumerable entries spread by `{ ...(entryRecord ?? {}) }`: an
object spreads its fields, an array spreads its elements under their index
keys, the `{}` fallback spreads nothing. -/
def spreadFields : Option Json → List (String × Json)
  | some (.obj fields) => fields
  | some (.arr xs) => xs.enum.map fun p => (Nat.repr p.1, p.2)
  | _ => []

/-- The `rawId` of `normalizeLibraryItems`: a non-blank string id is trimmed
and kept, anything else becomes the positional synthetic id. -/
def normalizedEntryId (entryRecord : Option Json) (index : Nat) : String :=
  match entryRecord with
  | some r =>
    match r.get "id" with
    | some (.str s) => if (jsTrim s) ≠ "" then (jsTrim s) else "item-" ++ Nat.repr (index + 1)
    | _ => "item-" ++ Nat.repr (index + 1)
  | none => "item-" ++ Nat.repr (index + 1)

/-- The `rawName` of `normalizeLibraryItems`. -/
def normalizedEntryName (entryRecord : Option Json) (index : Nat) : String :=
  match entryRecord with
  | some r =>
    match r.get "name" with
    | some (.str s) => if (jsTrim s) ≠ "" then (jsTrim s) else "Figura " ++ Nat.repr (index + 1)
    | _ => "Figura " ++ Nat.repr (index + 1)
  | none => "Figura " ++ Nat.repr (index + 1)

/-- The `rawStatus` of `normalizeLibraryItems`. -/
def normalizedEntryStatus (entryRecord : Option Json) : String :=
  match entryRecord with
  | some r =>
    match r.get "status" with
    | some (.str s) => if (jsTrim s) ≠ "" then (jsTrim s) else "published"
    | _ => "published"
  | none => "published"

/-- The `createdAt` of `normalizeLibraryItems` (`now` stands for
`Date.now()`). -/
def normalizedEntryCreated (entryRecord : Option Json) (now : Rat) (index : Nat) : Rat :=
  match entryRecord with
  | some r =>
    match r.get "created" with
    | some (.num q) => q
    | _ => now + (index : Rat)
  | none => now + (index : Rat)

/-- The body of the indexed `flatMap` of `normalizeLibraryItems` for one raw
entry. -/
def normalizeEntry (now : Rat) (entry : Json) (index : Nat) : List Json :=
  let entryRecord : Option Json := if isRecord entry then some entry else none
  let elements : List Json :=
    match entryRecord with
    | some r => extractItemElements r
    | none => extractRecordArray (some entry)
  if elements.length = 0 then []
  else
    [Json.obj
      (setField
        (setField
          (setField
            (setField
              (setField (spreadFields entryRecord) "id"
                (.str (normalizedEntryId entryRecord index)))
              "name" (.str (normalizedEntryName entryRecord index)))
            "status" (.str (normalizedEntryStatus entryRecord)))
          "created" (.num (normalizedEntryCreated entryRecord now index)))
        "elements" (.arr elements))]

/-- The indexed `flatMap` of `normalizeLibraryItems`, starting at `index`. -/
def normalizeAux (now : Rat) : Nat → List Json → List Json
  | _, [] => []
  | index, entry :: rest =>
    normalizeEntry now entry index ++ normalizeAux now (index + 1) rest

/-- `normalizeLibraryItems`. -/
def normalizeLibraryItems (now : Rat) (libraryItems : List Json) : List Json :=
  normalizeAux now 0 libraryItems

/-- The descending-length comparator of `extractLibraryItems`
(`(left, right) => right.length - left.length` sorts longer candidates
first). -/
def byDescendingLength (left right : List Json) : Bool :=
  decide (right.length ≤ left.length)

/-- `extractLibraryItems`: normalize every discovered candidate array
independently, drop the empty ones, stably sort by descending item count and
take the first (or `[]`). -/
def extractLibraryItems (now : Rat) (parsed : Json) : List Json :=
  let candidateArrays := extractCandidateLibraryArrays parsed
  if candidateArrays.length = 0 then []
  else
    let normalizedCandidates :=
      ((candidateArrays.map (normalizeLibraryItems now)).filter
          fun candidateArray => 0 < candidateArray.length).mergeSort byDescendingLength
    normalizedCandidates.headD []

/-- A catalog-dialog item (`CatalogLibraryItem` of the source). -/
structure CatalogLibraryItem where
  id : String
  name : String
  elements : List Json
  raw : Json

/-- The body of the indexed `map` of `toCatalogLibraryItems` for one
normalized entry. -/
def toCatalogEntry (entry : Json) (index : Nat) : CatalogLibraryItem :=
  let rawId :=
    match entry.get "id" with
    | some (.str s) => if (jsTrim s) ≠ "" then (jsTrim s) else "item-" ++ Nat.repr (index + 1)
    | _ => "item-" ++ Nat.repr (index + 1)
  let rawName :=
    match entry.get "name" with
    | some (.str s) => if (jsTrim s) ≠ "" then (jsTrim s) else "Figura " ++ Nat.repr (index + 1)
    | _ => "Figura " ++ Nat.repr (index + 1)
  { id := rawId ++ "-" ++ Nat.repr index
    name := rawName
    elements := extractItemElements entry
    raw := entry }

/-- The indexed `map` of `toCatalogLibraryItems`, starting at `index`. -/
def toCatalogAux : Nat → List Json → List CatalogLibraryItem
  | _, [] => []
  | index, entry :: rest => toCatalogEntry entry index :: toCatalogAux (index + 1) rest

/-- `toCatalogLibraryItems`. -/
def toCatalogLibraryItems (libraryItems : List Json) : List CatalogLibraryItem :=
  toCatalogAux 0 libraryItems

/-- `handleImportCatalogSelection` submits `itemsToImport.map((item) => item.raw)`
to the host import capability. -/
def importedRawRecords (items : List CatalogLibraryItem) : List Json :=
  items.map CatalogLibraryItem.raw

/-- `extractAbsolutePoints`: each well-formed `[px, py]` entry of
`element.points`, translated by the element's base position.  A point whose
first two entries are not finite numbers is skipped (`toFiniteNumber` with a
`NaN` fallback followed by the `Number.isFinite` guard). -/
def extractAbsolutePoints (element : Json) : List (Rat × Rat) :=
  match element.get "points" with
  | some (.arr points) =>
    let baseX := toFiniteNumber (element.get "x") 0
    let baseY := toFiniteNumber (element.get "y") 0
    points.flatMap fun point =>
      match point with
      | .arr ps =>
        if ps.length < 2 then []
        else
          match ps[0]?, ps[1]? with
          | some (Json.num px), some (Json.num py) => [(baseX + px, baseY + py)]
          | _, _ => []
      | _ => []
  | _ => []

/-- The running bounding box of `computeItemPreviewBounds`: `none` models the
initial `±Infinity` accumulator (no point seen yet), `some (minX, minY, maxX,
maxY)` a finite box.  `expandBounds` is the source's helper of the same
name. -/
def expandBounds : Option (Rat × Rat × Rat × Rat) → Rat × Rat → Option (Rat × Rat × Rat × Rat)
  | none, (x, y) => some (x, y, x, y)
  | some (mnX, mnY, mxX, mxY), (x, y) =>
    some (min mnX x, min mnY y, max mxX x, max mxY y)

/-- The `elements.forEach` body of `computeItemPreviewBounds`: expand with the
element's top-left corner, its bottom-right corner, then every absolute
point. -/
def elementExpand (acc : Option (Rat × Rat × Rat × Rat)) (element : Json) :
    Option (Rat × Rat × Rat × Rat) :=
  let x := toFiniteNumber (element.get "x") 0
  let y := toFiniteNumber (element.get "y") 0
  let width := toFiniteNumber (element.get "width") 0
  let height := toFiniteNumber (element.get "height") 0
  ((extractAbsolutePoints element).foldl expandBounds
    (expandBounds (expandBounds acc (x, y)) (x + width, y + height)))

/-- The result box of `computeItemPreviewBounds`. -/
structure PreviewBounds where
  minX : Rat
  minY : Rat
  width : Rat
  height : Rat
deriving DecidableEq

/-- `computeItemPreviewBounds`: fold the expansion over all elements; if the
accumulator never became finite return the fixed default box, else pad the
minimum-size-enforced extents. -/
def computeItemPreviewBounds (elements : List Json) : PreviewBounds :=
  match elements.foldl elementExpand none with
  | none => { minX := 0, minY := 0, width := 120, height := 84 }
  | some (mnX, mnY, mxX, mxY) =>
    let padding : Rat := 12
    let normalizedWidth := max (mxX - mnX) 40
    let normalizedHeight := max (mxY - mnY) 30
    { minX := mnX - padding
      minY := mnY - padding
      width := normalizedWidth + padding * 2
      height := normalizedHeight + padding * 2 }

/-- A catalog collection (`CatalogCollection` of the source). -/
structure CatalogCollection where
  id : String
  name : String
  source : String
  description : Option String := none
  author : Option String := none
  preview : Option String := none
deriving DecidableEq

/-- `FALLBACK_CATALOG`: the fixed hard-coded built-in collection list. -/
def FALLBACK_CATALOG : List CatalogCollection :=
  [{ id := "fallback-charts", name := "Charts", source := "charts/charts.json",
     description := some "Coleccion de graficos y elementos para tableros.",
     author := some "lamwai82" },
   { id := "fallback-brands", name := "Brand Logos",
     source := "brands/brands logos (library).json",
     description := some "Iconos y logotipos para diagramas de producto.",
     author := some "chakrihacker" },
   { id := "fallback-humanities", name := "Humanities and Social Sciences Icons",
     source := "education/literature/humanities-and-social-sciences-icons.json",
     description := some "Iconos educativos para mapas conceptuales.",
     author := some "jerrylow" },
   { id := "fallback-material", name := "Material Icons (Filled)",
     source := "libraries/icons/material-design-icons-filled.excalidrawlib",
     description := some "Pack de iconos generales tipo material.",
     author := some "toolzflow" },
   { id := "fallback-cosmos", name := "Cosmology Icons",
     source := "science/physics/cosmology icons.excalidrawlib",
     description := some "Coleccion cientifica para diagramas de fisica.",
     author := some "rdrahn" },
   { id := "fallback-theory", name := "Theory of Constraints",
     source := "business/strategy and planning/theory_of_constraints_3_entities.json",
     description := some "Plantillas para teoria de restricciones.",
     author := some "mihaialbert" }]

/-- `extractCatalogPreview`: a non-blank string preview, or the first non-blank
string among `url`, `src`, `image`, `path` of a record preview. -/
def extractCatalogPreview (entry : Json) : Option String :=
  match entry.get "preview" with
  | some (.str s) => if (jsTrim s) ≠ "" then some (jsTrim s) else none
  | some p =>
    if isRecord p then
      (["url", "src", "image", "path"].filterMap fun field =>
        match p.get field with
        | some (.str s) => if (jsTrim s) ≠ "" then some (jsTrim s) else none
        | _ => none).head?
    else none
  | none => none

/-- `extractCatalogEntries`: the record entries of a bare array, else the first
non-empty record array under `libraries`, `items`, `collections`, `catalog`. -/
def extractCatalogEntries (rawCatalog : Json) : List Json :=
  match rawCatalog with
  | .arr _ => extractRecordArray (some rawCatalog)
  | .obj fields =>
    (["libraries", "items", "collections", "catalog"].filterMap fun key =>
      match getKV fields key with
      | some value =>
        if isArrayValue value then
          let entries := extractRecordArray (some value)
          if 0 < entries.length then some entries else none
        else none
      | none => none).headD []
  | _ => []

/-- `extractCatalogAuthor`: a non-blank `author` string, an `author.name`
record field, or the comma-join of the non-blank entries of `authors`. -/
def extractCatalogAuthor (entry : Json) : Option String :=
  match entry.get "author" with
  | some (.str s) =>
    if (jsTrim s) ≠ "" then some (jsTrim s) else extractCatalogAuthorRest entry
  | some a =>
    if isRecord a then
      match a.get "name" with
      | some (.str s) => if (jsTrim s) ≠ "" then some (jsTrim s) else extractCatalogAuthorRest entry
      | _ => extractCatalogAuthorRest entry
    else extractCatalogAuthorRest entry
  | none => extractCatalogAuthorRest entry
where
  /-- The `authors` fallback of `extractCatalogAuthor`. -/
  extractCatalogAuthorRest (entry : Json) : Option String :=
    match entry.get "authors" with
    | some (.arr authors) =>
      let authorNames := authors.flatMap fun authorEntry =>
        match authorEntry with
        | .str s => if (jsTrim s) ≠ "" then [(jsTrim s)] else []
        | a =>
          if isRecord a then
            match a.get "name" with
            | some (.str s) => if (jsTrim s) ≠ "" then [(jsTrim s)] else []
            | _ => []
          else []
      if authorNames.length = 0 then none
      else some (String.intercalate ", " authorNames)
    | _ => none

/-- The body of the indexed `flatMap` of `parseCatalogCollections`.  `resolve`
stands for `resolveCatalogAssetUrl`, which wraps the browser's WHATWG `URL`
machinery (an external interface) and is therefore kept abstract. -/
def parseCatalogEntry (resolve : String → String) (entry : Json) (index : Nat) :
    List CatalogCollection :=
  let name := match entry.get "name" with | some (.str s) => (jsTrim s) | _ => ""
  let source := match entry.get "source" with | some (.str s) => (jsTrim s) | _ => ""
  if name = "" ∨ source = "" then []
  else
    let preview := extractCatalogPreview entry
    let description :=
      match entry.get "description" with
      | some (.str s) => if (jsTrim s) ≠ "" then some (jsTrim s) else none
      | _ => none
    let author := extractCatalogAuthor entry
    [{ id := source ++ "-" ++ Nat.repr index
       name := name
       source := source
       preview := preview.map resolve
       description := description
       author := author }]

/-- The indexed `flatMap` of `parseCatalogCollections`, starting at `index`. -/
def parseCatalogAux (resolve : String → String) : Nat → List Json → List CatalogCollection
  | _, [] => []
  | index, entry :: rest =>
    parseCatalogEntry resolve entry index ++ parseCatalogAux resolve (index + 1) rest

/-- `parseCatalogCollections`. -/
def parseCatalogCollections (resolve : String → String) (rawCatalog : Json) :
    List CatalogCollection :=
  parseCatalogAux resolve 0 (extractCatalogEntries rawCatalog)

/-- `CatalogLoadState`. -/
inductive CatalogLoadState where
  | idle
  | loading
  | ready
  | error
deriving DecidableEq

/-- The loader-relevant component state: `catalogLoadState`,
`catalogCollections` and `catalogError`. -/
structure CatalogState where
  loadState : CatalogLoadState
  collections : List CatalogCollection
  error : Option String
deriving DecidableEq

/-- The possible outcomes of the catalog fetch awaited by
`loadCatalogCollections`: the fetch rejects (network error, with the thrown
error's message), the response is not ok (non-success HTTP status), the body is
not valid JSON (`response.json()` rejects, with that error's message), or a
parsed JSON body is obtained. -/
inductive CatalogFetchResult where
  | rejected (message : String)
  | httpError (status : Nat)
  | invalidJson (message : String)
  | ok (body : Json)

/-- The error continuation of `loadCatalogCollections`: error state, recorded
message, fallback collections. -/
def catalogFailureState (message : String) : CatalogState :=
  { loadState := .error, collections := FALLBACK_CATALOG, error := some message }

/-- `loadCatalogCollections`, collapsed over its single suspension point: given
the pre-call state and the outcome the awaited fetch would produce, it returns
the state after the handler has run and whether a fetch was issued at all
(`load()` is a no-op while already `loading`). -/
def loadCatalogCollections (resolve : String → String) (s : CatalogState)
    (r : CatalogFetchResult) : CatalogState × Bool :=
  if s.loadState = .loading then (s, false)
  else
    match r with
    | .rejected message => (catalogFailureState message, true)
    | .httpError status =>
      (catalogFailureState ("No se pudo cargar el catalogo (HTTP " ++ Nat.repr status ++ ")."),
        true)
    | .invalidJson message => (catalogFailureState message, true)
    | .ok body =>
      let parsedCollections := parseCatalogCollections resolve body
      if parsedCollections.length = 0 then
        (catalogFailureState "El catalogo recibido no tiene colecciones validas.", true)
      else
        ({ loadState := .ready, collections := parsedCollections, error := none }, true)

/-- A fetch outcome on which `loadCatalogCollections` takes its failure path:
a rejected fetch, a non-success status, an invalid JSON body, or a body from
which zero valid collections are parsed. -/
def catalogFetchFails (resolve : String → String) : CatalogFetchResult → Prop
  | .ok body => parseCatalogCollections resolve body = []
  | _ => True

/-- The preview-hydration state: the `catalogPreviewElementsByCollectionId`
map and the `catalogPreviewLoadingRef` in-flight set. -/
structure PreviewCacheState where
  byCollection : List (String × List Json)
  inFlight : List String

/-- Assoc-list lookup for the preview map. -/
def assocLookup {α : Type} : List (String × α) → String → Option α
  | [], _ => none
  | (k, v) :: rest, key => if k = key then some v else assocLookup rest key

/-- Assoc-list update `{ ...map, [key]: value }`: replace in place or append. -/
def assocSet {α : Type} (m : List (String × α)) (key : String) (value : α) :
    List (String × α) :=
  if m.any fun kv => kv.1 = key then
    m.map fun kv => if kv.1 = key then (key, value) else kv
  else m ++ [(key, value)]

/-- The truthiness test `currentMap[collection.id]?.length`. -/
def cacheHasElements (m : List (String × List Json)) (id : String) : Bool :=
  match assocLookup m id with
  | some elements => elements.length != 0
  | none => false

/-- JavaScript `Set.add`: append if absent. -/
def setAdd (l : List String) (id : String) : List String :=
  if l.contains id then l else l ++ [id]

/-- The synchronous prefix of `ensureCatalogCollectionPreview` (everything up
to the `fetch`): if the collection already has cached preview elements or is
already in flight, nothing happens and no fetch is issued; otherwise the id is
added to the in-flight set and a fetch is issued. -/
def startPreviewHydration (s : PreviewCacheState) (collectionId : String) :
    PreviewCacheState × Bool :=
  if cacheHasElements s.byCollection collectionId then (s, false)
  else if s.inFlight.contains collectionId then (s, false)
  else ({ s with inFlight := setAdd s.inFlight collectionId }, true)

/-- The continuation of `ensureCatalogCollectionPreview` after its fetch
settles.  `result` is `some elements` when the fetch succeeded, the body
parsed, and a preview item with elements was found; `none` for every failure
(non-ok response, parse error, no preview item, thrown error).  The functional
state update writes the elements only if the key is still unpopulated, and the
`finally` block removes the id from the in-flight set in every case. -/
def completePreviewHydration (s : PreviewCacheState) (collectionId : String)
    (result : Option (List Json)) : PreviewCacheState :=
  { byCollection :=
      match result with
      | some elements =>
        if cacheHasElements s.byCollection collectionId then s.byCollection
        else assocSet s.byCollection collectionId elements
      | none => s.byCollection
    inFlight := s.inFlight.erase collectionId }

/-- `CatalogSelectionState`. -/
structure CatalogSelectionState where
  collection : CatalogCollection
  items : List CatalogLibraryItem
  selectedItemIds : List String

/-- `handleToggleCatalogItemSelection`: remove the id if selected, append it
otherwise; `collection` and `items` are untouched.  A `none` selection stays
`none`. -/
def handleToggleCatalogItemSelection (current : Option CatalogSelectionState)
    (itemId : String) : Option CatalogSelectionState :=
  match current with
  | none => none
  | some sel =>
    let alreadySelected := sel.selectedItemIds.contains itemId
    some { sel with
      selectedItemIds :=
        if alreadySelected then sel.selectedItemIds.filter fun selectedId => selectedId ≠ itemId
        else sel.selectedItemIds ++ [itemId] }

/-- The import mode accepted by `handleImportCatalogSelection`. -/
inductive ImportMode where
  | selected
  | all

/-- The `itemsToImport` resolution of `handleImportCatalogSelection`: all
items, or only those whose id is in the selected-id set. -/
def resolvedItemsToImport (sel : CatalogSelectionState) (mode : ImportMode) :
    List CatalogLibraryItem :=
  match mode with
  | .all => sel.items
  | .selected => sel.items.filter fun item => sel.selectedItemIds.contains item.id

/-- JavaScript truthiness of the `collectionBeingAddedId : string | null`
guard. -/
def optStringTruthy : Option String → Bool
  | none => false
  | some s => s ≠ ""

/-- The import-relevant component state. -/
structure ImportEnv where
  catalogSelection : Option CatalogSelectionState
  collectionBeingAddedId : Option String

/-- The observable outcome of one `handleImportCatalogSelection` call: the
toast shown (if any), the payload passed to the host import capability (if it
was called at all), and the final selection and currently-importing marker. -/
structure ImportOutcome where
  toast : Option String
  importedPayload : Option (List Json)
  finalSelection : Option CatalogSelectionState
  finalBeingAdded : Option String

/-- `handleImportCatalogSelection`, collapsed over its single suspension
point: `importResult` is how the awaited `importLibraryItems` call would
settle (`Except.error` carries the thrown error's message). -/
def handleImportCatalogSelection (env : ImportEnv) (mode : ImportMode)
    (importResult : Except String Unit) : ImportOutcome :=
  match env.catalogSelection with
  | none =>
    { toast := none, importedPayload := none
      finalSelection := env.catalogSelection, finalBeingAdded := env.collectionBeingAddedId }
  | some sel =>
    if optStringTruthy env.collectionBeingAddedId then
      { toast := none, importedPayload := none
        finalSelection := env.catalogSelection, finalBeingAdded := env.collectionBeingAddedId }
    else
      let itemsToImport := resolvedItemsToImport sel mode
      if itemsToImport.length = 0 then
        { toast := some "Selecciona al menos una figura para importar."
          importedPayload := none
          finalSelection := env.catalogSelection
          finalBeingAdded := env.collectionBeingAddedId }
      else
        match importResult with
        | .ok _ =>
          { toast := some ("Coleccion agregada: " ++ sel.collection.name ++ " (" ++
              Nat.repr itemsToImport.length ++ " figuras).")
            importedPayload := some (importedRawRecords itemsToImport)
            finalSelection := none
            finalBeingAdded := none }
        | .error message =>
          { toast := some message
            importedPayload := some (importedRawRecords itemsToImport)
            finalSelection := env.catalogSelection
            finalBeingAdded := none }

/-- Concrete selection state for the C5 witness. -/
def emptySelectionExample : CatalogSelectionState :=
  { collection := { id := "c-0", name := "C", source := "c.json" }
    items := []
    selectedItemIds := [] }

/-- The element record of the C2 scenario document. -/
def bareElementRecord : Json :=
  .obj [("type", .str "rectangle"), ("x", .num 0), ("y", .num 0),
        ("width", .num 10), ("height", .num 10)]

/-- The C2 scenario document: a bare JSON array of element records,
`[{"type":"rectangle","x":0,"y":0,"width":10,"height":10}]`. -/
def bareElementArrayDoc : Json := .arr [bareElementRecord]

/-- A one-entry library document for the C1 witness. -/
def candidateEntryExample : Json := .obj [("elements", .arr [.obj []])]

/-- The C1 witness document: a bare array holding `candidateEntryExample`. -/
def candidateDocExample : Json := .arr [candidateEntryExample]

/-- The entry carries no non-blank string id, so the normalizer must assign
the synthetic positional id. -/
def lacksExplicitId (entry : Json) : Prop :=
  ∀ s, entry.get "id" = some (.str s) → (jsTrim s) = ""

/-- Entry without an id for the C7 witness. -/
def entryNoId : Json := .obj [("elements", .arr [.obj []])]

/-- Entry with a whitespace-padded explicit id for the C7 counterexample. -/
def paddedIdEntry : Json := .obj [("id", .str " x "), ("elements", .arr [.obj []])]

/-- An entry all of whose five derived fields are already canonical: present
trimmed non-blank strings for id, name and status, a number for created, and a
non-empty array of records for elements, with unduplicated keys (as
`JSON.parse` produces). -/
def CanonicalEntry (e : Json) : Prop :=
  (∃ fields, e = Json.obj fields ∧ (fields.map Prod.fst).Nodup) ∧
  (∃ s, e.get "id" = some (.str s) ∧ (jsTrim s) = s ∧ s ≠ "") ∧
  (∃ s, e.get "name" = some (.str s) ∧ (jsTrim s) = s ∧ s ≠ "") ∧
  (∃ s, e.get "status" = some (.str s) ∧ (jsTrim s) = s ∧ s ≠ "") ∧
  (∃ q, e.get "created" = some (.num q)) ∧
  (∃ els, e.get "elements" = some (.arr els) ∧ els ≠ [] ∧ ∀ x ∈ els, isRecord x = true)

/-- A canonical entry for the C3 witness. -/
def canonicalEntryExample : Json :=
  .obj [("id", .str "a"), ("name", .str "N"), ("status", .str "published"),
        ("created", .num 5), ("elements", .arr [.obj []])]

/-- Entry with a padded explicit id for the C3 counterexample. -/
def paddedIdSource : Json := .obj [("id", .str " a "), ("elements", .arr [.obj []])]

/-- Spec-side characterization of the extents scanned by
`computeItemPreviewBounds` for one element: its top-left corner, its
bottom-right corner, and its point-list geometry resolved to absolute
coordinates. -/
def coveredPointsSpec (element : Json) : List (Rat × Rat) :=
  let x := toFiniteNumber (element.get "x") 0
  let y := toFiniteNumber (element.get "y") 0
  let width := toFiniteNumber (element.get "width") 0
  let height := toFiniteNumber (element.get "height") 0
  (x, y) :: (x + width, y + height) :: extractAbsolutePoints element

/-- A rectangle element for the C9 witness. -/
def rectElementExample : Json :=
  .obj [("type", .str "rectangle"), ("x", .num 0), ("y", .num 0),
        ("width", .num 10), ("height", .num 10)]

/-- **C10**: toggling the same item id twice on any selection state is an
involution on the selection: the resulting `selectedItemIds` contains exactly
the same set of ids as before the two toggles, and neither toggle changes the
`collection` field or the `items` list. -/
theorem toggleCatalogItemSelection_involution (sel : CatalogSelectionState) (itemId : String) :
    ∃ sel₁ sel₂,
      handleToggleCatalogItemSelection (some sel) itemId = some sel₁ ∧
      handleToggleCatalogItemSelection (some sel₁) itemId = some sel₂ ∧
      (∀ x, x ∈ sel₂.selectedItemIds ↔ x ∈ sel.selectedItemIds) ∧
      sel₁.collection = sel.collection ∧ sel₁.items = sel.items ∧
      sel₂.collection = sel.collection ∧ sel₂.items = sel.items := by
  by_cases h : sel.selectedItemIds.contains itemId
  · have hmem : itemId ∈ sel.selectedItemIds := by simpa using h
    have hfc : ((sel.selectedItemIds.filter fun s => s ≠ itemId)).contains itemId = false := by
      simp
    refine ⟨{ sel with selectedItemIds := sel.selectedItemIds.filter fun s => s ≠ itemId },
      { sel with selectedItemIds :=
          (sel.selectedItemIds.filter fun s => s ≠ itemId) ++ [itemId] },
      by simp only [handleToggleCatalogItemSelection, h, if_true, Bool.false_eq_true, ite_false],
      by
        simp only [handleToggleCatalogItemSelection, hfc, if_false, Bool.false_eq_true,
          ite_false], ?_, rfl, rfl, rfl, rfl⟩
    intro x
    simp only [List.mem_append, List.mem_filter, List.mem_singleton]
    constructor
    · rintro (⟨hx, _⟩ | rfl)
      · exact hx
      · exact hmem
    · intro hx
      by_cases hxi : x = itemId
      · exact Or.inr hxi
      · exact Or.inl ⟨hx, by simpa using hxi⟩
  · have hmem : itemId ∉ sel.selectedItemIds := by simpa using h
    have hc1 : (sel.selectedItemIds ++ [itemId]).contains itemId = true := by simp
    have hfself : ((sel.selectedItemIds ++ [itemId]).filter fun s => s ≠ itemId)
        = sel.selectedItemIds := by
      rw [List.filter_append, List.filter_eq_self.mpr, List.filter_cons]
      · simp
      · intro a ha
        simp only [ne_eq, decide_eq_true_eq]
        rintro rfl
        exact hmem ha
    refine ⟨{ sel with selectedItemIds := sel.selectedItemIds ++ [itemId] },
      { sel with selectedItemIds := sel.selectedItemIds },
      by
        simp only [handleToggleCatalogItemSelection, Bool.eq_false_iff.mpr h, if_false,
          Bool.false_eq_true, ite_false],
      by
        simp only [handleToggleCatalogItemSelection, hc1, if_true, Bool.false_eq_true, ite_false]
        rw [hfself], fun x => Iff.rfl, rfl, rfl, rfl, rfl⟩

/-- **C5**: for every selection state and import mode, if the resolved set of
items to import is empty, the import is rejected with a user-visible message,
the selection state and the currently-importing marker are unchanged, and the
host import capability is not called (no payload is submitted), whatever the
capability would have answered. -/
theorem handleImportCatalogSelection_emptySet (env : ImportEnv) (mode : ImportMode)
    (importResult : Except String Unit) (sel : CatalogSelectionState)
    (hsel : env.catalogSelection = some sel)
    (hidle : optStringTruthy env.collectionBeingAddedId = false)
    (hempty : resolvedItemsToImport sel mode = []) :
    handleImportCatalogSelection env mode importResult =
      { toast := some "Selecciona al menos una figura para importar."
        importedPayload := none
        finalSelection := env.catalogSelection
        finalBeingAdded := env.collectionBeingAddedId } := by
  simp [handleImportCatalogSelection, hsel, hidle, hempty]

/-- Witness for C5 at a concrete state. -/
theorem handleImportCatalogSelection_emptySet_witness :
    handleImportCatalogSelection
        { catalogSelection := some emptySelectionExample, collectionBeingAddedId := none }
        .all (.ok ()) =
      { toast := some "Selecciona al menos una figura para importar."
        importedPayload := none
        finalSelection := some emptySelectionExample
        finalBeingAdded := none } :=
  handleImportCatalogSelection_emptySet _ _ _ _ rfl rfl rfl

/-- **C4**: a catalog load attempt that fails in any way — rejected fetch,
non-success status, invalid JSON body, or zero valid parsed collections —
leaves the loader in the `error` state with a recorded message and the fixed
built-in fallback collection list (which is never empty); and invoking the
loader while it is already `loading` issues no fetch and changes no state. -/
theorem loadCatalogCollections_failure_fallback (resolve : String → String)
    (s : CatalogState) (r : CatalogFetchResult) :
    (s.loadState = .loading → loadCatalogCollections resolve s r = (s, false)) ∧
    (s.loadState ≠ .loading → catalogFetchFails resolve r →
      (loadCatalogCollections resolve s r).1.loadState = .error ∧
      (∃ message, (loadCatalogCollections resolve s r).1.error = some message) ∧
      (loadCatalogCollections resolve s r).1.collections = FALLBACK_CATALOG ∧
      (loadCatalogCollections resolve s r).1.collections ≠ []) := by
  constructor
  · intro h
    simp [loadCatalogCollections, h]
  · intro h hf
    cases r with
    | rejected message =>
      refine ⟨?_, ⟨message, ?_⟩, ?_, ?_⟩ <;>
        simp [loadCatalogCollections, h, catalogFailureState, FALLBACK_CATALOG]
    | httpError status =>
      refine ⟨?_, ⟨"No se pudo cargar el catalogo (HTTP " ++ Nat.repr status ++ ").", ?_⟩,
          ?_, ?_⟩ <;>
        simp [loadCatalogCollections, h, catalogFailureState, FALLBACK_CATALOG]
    | invalidJson message =>
      refine ⟨?_, ⟨message, ?_⟩, ?_, ?_⟩ <;>
        simp [loadCatalogCollections, h, catalogFailureState, FALLBACK_CATALOG]
    | ok body =>
      have hempty : parseCatalogCollections resolve body = [] := hf
      refine ⟨?_, ⟨"El catalogo recibido no tiene colecciones validas.", ?_⟩, ?_, ?_⟩ <;>
        simp [loadCatalogCollections, h, hempty, catalogFailureState, FALLBACK_CATALOG]

/-- Witness for C4: the no-op while `loading`, and the fallback after an HTTP
failure from the `idle` state. -/
theorem loadCatalogCollections_failure_fallback_witness :
    (loadCatalogCollections id { loadState := .loading, collections := [], error := none }
        (.httpError 500) =
      ({ loadState := .loading, collections := [], error := none }, false)) ∧
    ((loadCatalogCollections id { loadState := .idle, collections := [], error := none }
        (.httpError 500)).1.loadState = .error ∧
      (∃ message,
        (loadCatalogCollections id { loadState := .idle, collections := [], error := none }
          (.httpError 500)).1.error = some message) ∧
      (loadCatalogCollections id { loadState := .idle, collections := [], error := none }
        (.httpError 500)).1.collections = FALLBACK_CATALOG ∧
      (loadCatalogCollections id { loadState := .idle, collections := [], error := none }
        (.httpError 500)).1.collections ≠ []) :=
  ⟨(loadCatalogCollections_failure_fallback id _ _).1 rfl,
    (loadCatalogCollections_failure_fallback id _ _).2 (by decide) trivial⟩

/-- **C6**: per collection id, a hydration request for an id that is already
in flight or already cached issues no fetch and changes nothing; a fetch is
only ever started for an id that is not currently in flight (and the start
marks it in flight, so at most one fetch per id is in flight at a time); on
completion — success or failure — the id is removed from the in-flight set;
and a completion that finds its key already populated does not overwrite it
(the first successful writer wins). -/
theorem previewHydration_singleFlight (s : PreviewCacheState) (collectionId : String)
    (result : Option (List Json)) :
    ((s.inFlight.contains collectionId = true ∨
        cacheHasElements s.byCollection collectionId = true) →
      startPreviewHydration s collectionId = (s, false)) ∧
    ((startPreviewHydration s collectionId).2 = true →
      s.inFlight.contains collectionId = false ∧
      (startPreviewHydration s collectionId).1.inFlight.contains collectionId = true) ∧
    ((completePreviewHydration s collectionId result).inFlight =
      s.inFlight.erase collectionId) ∧
    (cacheHasElements s.byCollection collectionId = true →
      (completePreviewHydration s collectionId result).byCollection = s.byCollection) := by
  refine ⟨?_, ?_, rfl, ?_⟩
  · rintro (hfly | hcache)
    · by_cases hcache : cacheHasElements s.byCollection collectionId
      · simp [startPreviewHydration, hcache]
      · have hmem : collectionId ∈ s.inFlight := by simpa using hfly
        simp [startPreviewHydration, hcache, hmem]
    · simp [startPreviewHydration, hcache]
  · intro hstart
    by_cases hcache : cacheHasElements s.byCollection collectionId
    · simp [startPreviewHydration, hcache] at hstart
    · by_cases hfly : collectionId ∈ s.inFlight
      · simp [startPreviewHydration, hcache, hfly] at hstart
      · constructor
        · simpa using hfly
        · simp [startPreviewHydration, hcache, hfly, setAdd]
  · intro hcache
    cases result with
    | none => rfl
    | some elements => simp [completePreviewHydration, hcache]

/-- Witness for C6 at a concrete state: an id already in flight is a no-op,
completion erases it, and a populated key is not overwritten. -/
theorem previewHydration_singleFlight_witness :
    (startPreviewHydration { byCollection := [("c", [Json.obj []])], inFlight := ["c"] } "c" =
      ({ byCollection := [("c", [Json.obj []])], inFlight := ["c"] }, false)) ∧
    ((completePreviewHydration { byCollection := [("c", [Json.obj []])], inFlight := ["c"] } "c"
        (some [])).inFlight = (["c"] : List String).erase "c") ∧
    ((completePreviewHydration { byCollection := [("c", [Json.obj []])], inFlight := ["c"] } "c"
        (some [])).byCollection = [("c", [Json.obj []])]) :=
  ⟨(previewHydration_singleFlight _ "c" (some [])).1 (Or.inl rfl),
    (previewHydration_singleFlight _ "c" (some [])).2.2.1,
    (previewHydration_singleFlight _ "c" (some [])).2.2.2 rfl⟩

/-- **C2** (evaluation of the code at the failing input): on a bare array of
element records the only discovered candidate is the array of records itself,
each record is dropped by the normalizer (it has no `elements` and no
`data.elements` field, and the `Figura`-synthesizing branch for array-shaped
entries is unreachable because `isRecord` is also true for arrays), so the
extraction result is empty — no single item named "Figura 1" is produced, and
`parseLibraryItemsFromText` would report that no figures were found. -/
theorem bareElementArray_extraction_empty (now : Rat) :
    extractCandidateLibraryArrays bareElementArrayDoc = [[bareElementRecord]] ∧
    normalizeLibraryItems now [bareElementRecord] = [] ∧
    extractLibraryItems now bareElementArrayDoc = [] := by
  have hcand : extractCandidateLibraryArrays bareElementArrayDoc = [[bareElementRecord]] := rfl
  have hnorm : normalizeLibraryItems now [bareElementRecord] = [] := rfl
  refine ⟨hcand, hnorm, ?_⟩
  simp [extractLibraryItems, hcand, hnorm]

/-- **C1**: `extractLibraryItems` selects, among all candidate arrays
discovered by the depth-bounded breadth-first traversal, a candidate whose
independent normalization has the largest item count: its result is at least
as long as the normalization of every discovered candidate, and when no
candidate array is discovered the result is the empty list (not an error). -/
theorem extractLibraryItems_selects_largest (now : Rat) (parsed : Json) :
    (extractCandidateLibraryArrays parsed = [] → extractLibraryItems now parsed = []) ∧
    ∀ c ∈ extractCandidateLibraryArrays parsed,
      (normalizeLibraryItems now c).length ≤ (extractLibraryItems now parsed).length := by
  constructor
  · intro h
    simp [extractLibraryItems, h]
  · intro c hc
    by_cases hz : (normalizeLibraryItems now c).length = 0
    · simp [hz]
    · have hne : (extractCandidateLibraryArrays parsed).length ≠ 0 := by
        intro h0
        rw [List.length_eq_zero] at h0
        rw [h0] at hc
        cases hc
      have hmemL : normalizeLibraryItems now c ∈
          ((extractCandidateLibraryArrays parsed).map (normalizeLibraryItems now)).filter
            fun candidateArray => 0 < candidateArray.length := by
        refine List.mem_filter.mpr ⟨List.mem_map_of_mem _ hc, ?_⟩
        simpa [Nat.pos_iff_ne_zero] using hz
      have hmemS : normalizeLibraryItems now c ∈
          (((extractCandidateLibraryArrays parsed).map (normalizeLibraryItems now)).filter
            fun candidateArray => 0 < candidateArray.length).mergeSort byDescendingLength :=
        (List.mergeSort_perm _ _).mem_iff.mpr hmemL
      have hsorted :
          ((((extractCandidateLibraryArrays parsed).map (normalizeLibraryItems now)).filter
            fun candidateArray => 0 < candidateArray.length).mergeSort
              byDescendingLength).Pairwise fun a b => byDescendingLength a b = true := by
        refine List.sorted_mergeSort ?_ ?_ _
        · intro a b c hab hbc
          simp only [byDescendingLength, decide_eq_true_eq] at *
          omega
        · intro a b
          simp only [byDescendingLength]
          rcases Nat.le_total b.length a.length with hab | hab <;> simp [hab]
      have hresult : extractLibraryItems now parsed =
          ((((extractCandidateLibraryArrays parsed).map (normalizeLibraryItems now)).filter
            fun candidateArray => 0 < candidateArray.length).mergeSort
              byDescendingLength).headD [] := by
        simp [extractLibraryItems, hne, byDescendingLength]
      rw [hresult]
      rcases hhead : (((extractCandidateLibraryArrays parsed).map
          (normalizeLibraryItems now)).filter fun candidateArray =>
            0 < candidateArray.length).mergeSort byDescendingLength with _ | ⟨h, t⟩
      · rw [hhead] at hmemS
        cases hmemS
      · rw [hhead] at hmemS hsorted ⊢
        rcases List.mem_cons.mp hmemS with heq | hmem
        · simp [heq]
        · have hpair := (List.pairwise_cons.mp hsorted).1 _ hmem
          simp only [byDescendingLength, decide_eq_true_eq] at hpair
          simpa using hpair

/-- Witness for C1: a candidate-free document yields `[]`, and on a concrete
document the selected result is at least as long as a discovered candidate's
normalization. -/
theorem extractLibraryItems_selects_largest_witness :
    extractLibraryItems 0 (Json.num 3) = [] ∧
    (normalizeLibraryItems 0 [candidateEntryExample]).length ≤
      (extractLibraryItems 0 candidateDocExample).length :=
  ⟨(extractLibraryItems_selects_largest 0 (Json.num 3)).1 rfl,
    (extractLibraryItems_selects_largest 0 candidateDocExample).2 [candidateEntryExample]
      (by
        rw [show extractCandidateLibraryArrays candidateDocExample
          = [[candidateEntryExample], [Json.obj []]] from rfl]
        simp)⟩

/-- Decimal digit characters have the expected code points. -/
lemma digitChar_toNat (m : Nat) (h : m < 10) : (Nat.digitChar m).toNat = 48 + m := by
  interval_cases m <;> decide

/-- Decimal digit characters are never the dash separator. -/
lemma digitChar_ne_dash (m : Nat) (h : m < 10) : Nat.digitChar m ≠ '-' := by
  interval_cases m <;> decide

/-- Every character produced by `Nat.toDigitsCore 10` over a dash-free
accumulator is dash-free. -/
lemma toDigitsCore_ne_dash (fuel : Nat) : ∀ (n : Nat) (acc : List Char),
    (∀ c ∈ acc, c ≠ '-') → ∀ c ∈ Nat.toDigitsCore 10 fuel n acc, c ≠ '-' := by
  induction fuel with
  | zero =>
    intro n acc hacc
    simpa [Nat.toDigitsCore] using hacc
  | succ fuel ih =>
    intro n acc hacc c hc
    simp only [Nat.toDigitsCore] at hc
    by_cases h10 : n / 10 = 0
    · rw [if_pos h10] at hc
      rcases List.mem_cons.mp hc with rfl | hmem
      · exact digitChar_ne_dash _ (Nat.mod_lt _ (by norm_num))
      · exact hacc _ hmem
    · rw [if_neg h10] at hc
      refine ih _ _ ?_ c hc
      intro d hd
      rcases List.mem_cons.mp hd with rfl | hmem
      · exact digitChar_ne_dash _ (Nat.mod_lt _ (by norm_num))
      · exact hacc _ hmem

/-- The decimal representation of a natural number contains no dash. -/
lemma toDigits_ne_dash (n : Nat) : ∀ c ∈ Nat.toDigits 10 n, c ≠ '-' :=
  toDigitsCore_ne_dash _ _ _ (by simp)

/-- Folding the decimal-decoding step over `Nat.toDigitsCore 10` recovers the
encoded number (with the accumulator laws made explicit). -/
lemma toDigitsCore_decode (n : Nat) : ∀ (fuel : Nat) (acc : List Char) (a : Nat),
    n < fuel →
    (Nat.toDigitsCore 10 fuel n acc).foldl (fun x c => 10 * x + (c.toNat - 48)) a =
      acc.foldl (fun x c => 10 * x + (c.toNat - 48)) (a * 10 ^ (Nat.log 10 n + 1) + n) := by
  induction n using Nat.strong_induction_on with
  | _ n ih =>
    intro fuel acc a hfuel
    cases fuel with
    | zero => omega
    | succ fuel =>
      simp only [Nat.toDigitsCore]
      by_cases h10 : n / 10 = 0
      · have hn : n < 10 := by omega
        rw [if_pos h10, List.foldl_cons]
        have hlog : Nat.log 10 n = 0 := Nat.log_eq_zero_iff.mpr (Or.inl hn)
        rw [Nat.mod_eq_of_lt hn, digitChar_toNat n hn, hlog]
        congr 1
        simp only [pow_succ, pow_zero, one_mul]
        omega
      · have hge : 10 ≤ n := by
          rcases Nat.lt_or_ge n 10 with h | h
          · exact absurd (Nat.div_eq_of_lt h) h10
          · exact h
        rw [if_neg h10]
        have hlt : n / 10 < n := Nat.div_lt_self (by omega) (by norm_num)
        rw [ih (n / 10) hlt fuel (Nat.digitChar (n % 10) :: acc) a (by omega),
          List.foldl_cons]
        congr 1
        have hlog : Nat.log 10 n = Nat.log 10 (n / 10) + 1 := by
          have h1 := Nat.log_div_base 10 n
          have h2 : 0 < Nat.log 10 n := Nat.log_pos (by norm_num) hge
          omega
        have hmod : n % 10 < 10 := Nat.mod_lt _ (by norm_num)
        have hpow : (10 : Nat) ^ (Nat.log 10 (n / 10) + 1 + 1) =
            10 ^ (Nat.log 10 (n / 10) + 1) * 10 := pow_succ 10 _
        rw [digitChar_toNat _ hmod, hlog, hpow, ← mul_assoc]
        generalize a * 10 ^ (Nat.log 10 (n / 10) + 1) = A
        omega

/-- Decoding the decimal representation recovers the number. -/
lemma toDigits_decode (n : Nat) :
    (Nat.toDigits 10 n).foldl (fun x c => 10 * x + (c.toNat - 48)) 0 = n := by
  have h := toDigitsCore_decode n (n + 1) [] 0 (Nat.lt_succ_self n)
  simpa using h

/-- The decimal representation (as a character list) is injective. -/
lemma toDigits_injective {m n : Nat} (h : Nat.toDigits 10 m = Nat.toDigits 10 n) :
    m = n := by
  have hm := toDigits_decode m
  rw [h, toDigits_decode] at hm
  exact hm.symm

/-- The character data of `Nat.repr` is exactly `Nat.toDigits 10`. -/
lemma natRepr_data (n : Nat) : (Nat.repr n).data = Nat.toDigits 10 n := rfl

/-- If two lists agree around a separator that occurs in neither prefix, the
prefixes and the suffixes agree. -/
lemma append_cons_eq_of_not_mem {c : Char} :
    ∀ {a₁ a₂ b₁ b₂ : List Char}, a₁ ++ c :: b₁ = a₂ ++ c :: b₂ →
      c ∉ a₁ → c ∉ a₂ → a₁ = a₂ ∧ b₁ = b₂ := by
  intro a₁
  induction a₁ with
  | nil =>
    intro a₂ b₁ b₂ h h₁ h₂
    cases a₂ with
    | nil =>
      simp only [List.nil_append] at h
      exact ⟨rfl, (List.cons.injEq _ _ _ _ ▸ h).2⟩
    | cons x a₂ =>
      simp only [List.nil_append, List.cons_append, List.cons.injEq] at h
      exact absurd (h.1 ▸ List.mem_cons_self x a₂) (h.1 ▸ h₂)
  | cons x a₁ ih =>
    intro a₂ b₁ b₂ h h₁ h₂
    cases a₂ with
    | nil =>
      simp only [List.cons_append, List.nil_append, List.cons.injEq] at h
      exact absurd (h.1.symm ▸ List.mem_cons_self x a₁) (h.1.symm ▸ h₁)
    | cons y a₂ =>
      simp only [List.cons_append, List.cons.injEq] at h
      obtain ⟨rfl, htail⟩ := h
      have hrec := ih htail (fun hm => h₁ (List.mem_cons_of_mem _ hm))
        (fun hm => h₂ (List.mem_cons_of_mem _ hm))
      exact ⟨by rw [hrec.1], hrec.2⟩

/-- Two `prefix ++ "-" ++ Nat.repr index` strings can only coincide when the
indices coincide: the characters after the last dash are exactly the decimal
digits of the index. -/
lemma dashIndex_inj {r₁ r₂ : String} {i j : Nat}
    (h : r₁ ++ "-" ++ Nat.repr i = r₂ ++ "-" ++ Nat.repr j) : i = j := by
  have hdata : r₁.data ++ '-' :: Nat.toDigits 10 i =
      r₂.data ++ '-' :: Nat.toDigits 10 j := by
    have hd := congrArg String.data h
    simpa [String.data_append, natRepr_data] using hd
  have hrev : (Nat.toDigits 10 i).reverse ++ '-' :: r₁.data.reverse =
      (Nat.toDigits 10 j).reverse ++ '-' :: r₂.data.reverse := by
    have hr := congrArg List.reverse hdata
    simpa [List.reverse_append] using hr
  have h₁ : '-' ∉ (Nat.toDigits 10 i).reverse := by
    rw [List.mem_reverse]
    intro hmem
    exact toDigits_ne_dash i '-' hmem rfl
  have h₂ : '-' ∉ (Nat.toDigits 10 j).reverse := by
    rw [List.mem_reverse]
    intro hmem
    exact toDigits_ne_dash j '-' hmem rfl
  have hdig := (append_cons_eq_of_not_mem hrev h₁ h₂).1
  exact toDigits_injective (List.reverse_inj.mp hdig)

/-- Every id produced by the catalog mapping from start index `i` carries a
dash-separated position suffix `≥ i`. -/
lemma toCatalogAux_id_shape (l : List Json) : ∀ (i : Nat) (s : String),
    s ∈ (toCatalogAux i l).map CatalogLibraryItem.id →
      ∃ r k, i ≤ k ∧ s = r ++ "-" ++ Nat.repr k := by
  induction l with
  | nil =>
    intro i s hs
    simp [toCatalogAux] at hs
  | cons e rest ih =>
    intro i s hs
    simp only [toCatalogAux, List.map_cons, List.mem_cons] at hs
    rcases hs with rfl | hs
    · exact ⟨_, i, le_refl i, rfl⟩
    · obtain ⟨r, k, hk, hs⟩ := ih (i + 1) s hs
      exact ⟨r, k, by omega, hs⟩

/-- **C8**: for every normalized list of library items produced from one
document, the item ids of the catalog item list built from it are pairwise
distinct, even when the source entries carry duplicate explicit ids (each id is
suffixed with its dash-separated position, and the digits after the final dash
determine the position uniquely). -/
theorem toCatalogLibraryItems_ids_nodup (libraryItems : List Json) :
    ((toCatalogLibraryItems libraryItems).map CatalogLibraryItem.id).Nodup := by
  suffices h : ∀ (l : List Json) (i : Nat),
      ((toCatalogAux i l).map CatalogLibraryItem.id).Nodup from
    h libraryItems 0
  intro l
  induction l with
  | nil =>
    intro i
    simp [toCatalogAux]
  | cons e rest ih =>
    intro i
    simp only [toCatalogAux, List.map_cons]
    refine List.nodup_cons.mpr ⟨?_, ih (i + 1)⟩
    intro hmem
    obtain ⟨r, k, hk, hs⟩ := toCatalogAux_id_shape rest (i + 1) _ hmem
    have hki : i = k := dashIndex_inj (hs : _ ++ "-" ++ Nat.repr i = r ++ "-" ++ Nat.repr k)
    omega

/-- Lookup distributes over append: the left fields win. -/
lemma getKV_append (l₁ l₂ : List (String × Json)) (k : String) :
    getKV (l₁ ++ l₂) k = match getKV l₁ k with
      | some v => some v
      | none => getKV l₂ k := by
  induction l₁ with
  | nil => simp [getKV]
  | cons kv rest ih =>
    by_cases hk : kv.1 = k
    · simp [getKV, hk]
    · simp [getKV, hk, ih]

/-- A successful lookup means the key is present. -/
lemma any_of_getKV_some {fields : List (String × Json)} {k : String} {v : Json}
    (h : getKV fields k = some v) : (fields.any fun kv => kv.1 = k) = true := by
  induction fields with
  | nil => simp [getKV] at h
  | cons kv rest ih =>
    obtain ⟨k₀, v₀⟩ := kv
    by_cases hk : k₀ = k
    · simp [hk]
    · have hstep : getKV ((k₀, v₀) :: rest) k = getKV rest k := by simp [getKV, hk]
      rw [hstep] at h
      simp only [List.any_cons, Bool.or_eq_true, decide_eq_true_eq]
      exact Or.inr (ih h)

/-- An absent key looks up to `none`. -/
lemma getKV_none_of_not_any {fields : List (String × Json)} {k : String}
    (h : (fields.any fun kv => kv.1 = k) = false) : getKV fields k = none := by
  induction fields with
  | nil => rfl
  | cons kv rest ih =>
    obtain ⟨k₀, v₀⟩ := kv
    simp only [List.any_cons, Bool.or_eq_false_iff, decide_eq_false_iff_not] at h
    simp [getKV, h.1, ih h.2]

/-- Replacing a present key makes it look up to the new value. -/
lemma getKV_mapReplace {fields : List (String × Json)} {k : String} (v : Json)
    (h : (fields.any fun kv => kv.1 = k) = true) :
    getKV (fields.map fun kv => if kv.1 = k then (k, v) else kv) k = some v := by
  induction fields with
  | nil => simp at h
  | cons kv rest ih =>
    obtain ⟨k₀, v₀⟩ := kv
    rw [List.map_cons]
    by_cases hk : k₀ = k
    · have hif : (if (k₀, v₀).1 = k then (k, v) else (k₀, v₀)) = (k, v) := by simp [hk]
      rw [hif]
      simp [getKV]
    · have hif : (if (k₀, v₀).1 = k then (k, v) else (k₀, v₀)) = (k₀, v₀) := by simp [hk]
      rw [hif]
      have hstep :
          getKV ((k₀, v₀) :: (rest.map fun kv => if kv.1 = k then (k, v) else kv)) k =
            getKV (rest.map fun kv => if kv.1 = k then (k, v) else kv) k := by
        simp [getKV, hk]
      rw [hstep]
      exact ih (by simpa [hk] using h)

/-- Replacing one key does not change lookups of other keys. -/
lemma getKV_mapReplace_other {fields : List (String × Json)} {k : String} (v : Json)
    {k' : String} (h : k' ≠ k) :
    getKV (fields.map fun kv => if kv.1 = k then (k, v) else kv) k' = getKV fields k' := by
  induction fields with
  | nil => rfl
  | cons kv rest ih =>
    obtain ⟨k₀, v₀⟩ := kv
    rw [List.map_cons]
    by_cases hk : k₀ = k
    · have hif : (if (k₀, v₀).1 = k then (k, v) else (k₀, v₀)) = (k, v) := by simp [hk]
      rw [hif]
      have hkk : ¬k = k' := fun hc => h hc.symm
      have h1 : getKV ((k, v) :: (rest.map fun kv => if kv.1 = k then (k, v) else kv)) k' =
          getKV (rest.map fun kv => if kv.1 = k then (k, v) else kv) k' := by
        simp [getKV, hkk]
      have h2 : getKV ((k₀, v₀) :: rest) k' = getKV rest k' := by
        have hne : k₀ ≠ k' := by rw [hk]; exact fun hc => h hc.symm
        simp [getKV, hne]
      rw [h1, h2, ih]
    · have hif : (if (k₀, v₀).1 = k then (k, v) else (k₀, v₀)) = (k₀, v₀) := by simp [hk]
      rw [hif]
      by_cases hk' : k₀ = k'
      · simp [getKV, hk']
      · simp [getKV, hk', ih]

/-- `setField` makes its key look up to its value. -/
lemma getKV_setField_self (fields : List (String × Json)) (k : String) (v : Json) :
    getKV (setField fields k v) k = some v := by
  unfold setField
  by_cases h : (fields.any fun kv => kv.1 = k) = true
  · rw [if_pos h]
    exact getKV_mapReplace v h
  · rw [if_neg h]
    rw [getKV_append]
    rw [getKV_none_of_not_any (Bool.eq_false_iff.mpr h)]
    simp [getKV]

/-- `setField` leaves lookups of other keys unchanged. -/
lemma getKV_setField_other (fields : List (String × Json)) (k : String) (v : Json)
    (k' : String) (h : k' ≠ k) :
    getKV (setField fields k v) k' = getKV fields k' := by
  unfold setField
  by_cases hany : (fields.any fun kv => kv.1 = k) = true
  · rw [if_pos hany]
    exact getKV_mapReplace_other v h
  · rw [if_neg hany, getKV_append]
    have hkk : ¬k = k' := fun hc => h hc.symm
    cases hkv : getKV fields k' with
    | some v' => rfl
    | none => simp [getKV, hkk]

/-- The id field of every record produced by the normalizer. -/
lemma get_id_of_normalizedRecord (base : List (String × Json)) (vid vn vs vc ve : Json) :
    Json.get (Json.obj (setField (setField (setField (setField (setField base "id" vid)
        "name" vn) "status" vs) "created" vc) "elements" ve)) "id" = some vid := by
  show getKV _ "id" = some vid
  rw [getKV_setField_other _ _ _ _ (by decide), getKV_setField_other _ _ _ _ (by decide),
    getKV_setField_other _ _ _ _ (by decide), getKV_setField_other _ _ _ _ (by decide),
    getKV_setField_self]

/-- A successful field access only happens on objects, which are records. -/
lemma isRecord_of_get_some {e : Json} {k : String} {v : Json}
    (h : e.get k = some v) : isRecord e = true := by
  cases e <;> simp [Json.get, isRecord] at h ⊢

/-- Every record in the normalizer's output for one entry carries the
normalizer's id for that entry. -/
lemma normalizeEntry_get_id (now : Rat) (e : Json) (i : Nat) (r : Json)
    (hr : r ∈ normalizeEntry now e i) :
    r.get "id" = some (.str (normalizedEntryId (if isRecord e then some e else none) i)) := by
  by_cases hrec : isRecord e
  · rw [if_pos hrec]
    have hr' : r ∈ (if (extractItemElements e).length = 0 then ([] : List Json)
        else [Json.obj (setField (setField (setField (setField (setField
          (spreadFields (some e)) "id" (Json.str (normalizedEntryId (some e) i)))
          "name" (Json.str (normalizedEntryName (some e) i)))
          "status" (Json.str (normalizedEntryStatus (some e))))
          "created" (Json.num (normalizedEntryCreated (some e) now i)))
          "elements" (Json.arr (extractItemElements e)))]) := by
      simpa [normalizeEntry, hrec] using hr
    by_cases hlen : (extractItemElements e).length = 0
    · rw [if_pos hlen] at hr'
      cases hr'
    · rw [if_neg hlen] at hr'
      rcases List.mem_singleton.mp hr' with rfl
      exact get_id_of_normalizedRecord _ _ _ _ _ _
  · rw [if_neg hrec]
    have hr' : r ∈ (if (extractRecordArray (some e)).length = 0 then ([] : List Json)
        else [Json.obj (setField (setField (setField (setField (setField
          (spreadFields none) "id" (Json.str (normalizedEntryId none i)))
          "name" (Json.str (normalizedEntryName none i)))
          "status" (Json.str (normalizedEntryStatus none)))
          "created" (Json.num (normalizedEntryCreated none now i)))
          "elements" (Json.arr (extractRecordArray (some e))))]) := by
      simpa [normalizeEntry, hrec] using hr
    by_cases hlen : (extractRecordArray (some e)).length = 0
    · rw [if_pos hlen] at hr'
      cases hr'
    · rw [if_neg hlen] at hr'
      rcases List.mem_singleton.mp hr' with rfl
      exact get_id_of_normalizedRecord _ _ _ _ _ _

/-- `normalizeLibraryItems` is the concatenation, over all input positions, of
the per-entry normalizations at those positions. -/
lemma normalizeAux_eq_flatten (now : Rat) : ∀ (l : List Json) (k : Nat),
    normalizeAux now k l = (List.range l.length).flatMap fun idx =>
      normalizeEntry now (l.getD idx Json.null) (k + idx) := by
  intro l
  induction l with
  | nil => intro k; simp [normalizeAux]
  | cons e rest ih =>
    intro k
    rw [show normalizeAux now k (e :: rest) =
      normalizeEntry now e k ++ normalizeAux now (k + 1) rest from rfl]
    rw [List.length_cons, List.range_succ_eq_map, List.flatMap_cons, ih (k + 1),
      List.flatMap_map]
    simp only [List.getD_cons_zero, List.getD_cons_succ, Nat.add_zero, Nat.succ_eq_add_one]
    have hfun : (fun idx => normalizeEntry now (rest.getD idx Json.null) (k + 1 + idx)) =
        fun idx => normalizeEntry now (rest.getD idx Json.null) (k + (idx + 1)) := by
      funext idx
      have h1 : k + (idx + 1) = k + 1 + idx := by omega
      rw [h1]
    rw [hfun]

/-- Unfolding of `normalizedEntryId` on a present entry record. -/
lemma normalizedEntryId_eq (e : Json) (i : Nat) :
    normalizedEntryId (some e) i = match e.get "id" with
      | some (.str s) => if (jsTrim s) ≠ "" then (jsTrim s) else "item-" ++ Nat.repr (i + 1)
      | _ => "item-" ++ Nat.repr (i + 1) := rfl

/-- **C7** (amended): in the normalizer's output, every entry lacking a
non-blank string id receives the synthetic id `item-<n>` with `n` its 1-based
input position; these synthetic ids are pairwise distinct; and any two entries
that carry the same non-blank explicit string id both receive that id trimmed
of surrounding whitespace — identical for both, with no deduplication or
renaming beyond the trim (an already-trimmed id is retained unchanged). -/
theorem normalizeLibraryItems_id_assignment (now : Rat) (entries : List Json) :
    (normalizeLibraryItems now entries = (List.range entries.length).flatMap fun idx =>
        normalizeEntry now (entries.getD idx Json.null) idx) ∧
    (∀ i r, r ∈ normalizeEntry now (entries.getD i Json.null) i →
      (lacksExplicitId (entries.getD i Json.null) →
        r.get "id" = some (.str ("item-" ++ Nat.repr (i + 1)))) ∧
      (∀ s, (entries.getD i Json.null).get "id" = some (.str s) → (jsTrim s) ≠ "" →
        r.get "id" = some (.str (jsTrim s)))) ∧
    (∀ i j : Nat, i ≠ j →
      ("item-" ++ Nat.repr (i + 1) : String) ≠ "item-" ++ Nat.repr (j + 1)) := by
  refine ⟨?_, ?_, ?_⟩
  · have h := normalizeAux_eq_flatten now entries 0
    simpa [normalizeLibraryItems] using h
  · intro i r hr
    set e := entries.getD i Json.null with he
    have hid := normalizeEntry_get_id now e i r hr
    constructor
    · intro hlacks
      rw [hid]
      by_cases hrec : isRecord e
      · rw [if_pos hrec, normalizedEntryId_eq]
        cases hg : e.get "id" with
        | none => rfl
        | some v =>
          cases v with
          | str s =>
            have hblank : (jsTrim s) = "" := hlacks s hg
            simp [hblank]
          | null => rfl
          | bool b => rfl
          | num q => rfl
          | arr xs => rfl
          | obj fields => rfl
      · rw [if_neg hrec]
        rfl
    · intro s hg htrim
      have hrec : isRecord e = true := isRecord_of_get_some hg
      rw [hid, if_pos hrec, normalizedEntryId_eq, hg]
      simp [htrim]
  · intro i j hij h
    have h' : ("item" ++ "-" ++ Nat.repr (i + 1) : String) =
        "item" ++ "-" ++ Nat.repr (j + 1) := h
    have hinj := dashIndex_inj h'
    omega

/-- Witness for C7 at a concrete two-entry document. -/
theorem normalizeLibraryItems_id_assignment_witness :
    ((normalizeEntry 0 ([entryNoId, entryNoId].getD 0 Json.null) 0).headD Json.null).get "id"
        = some (.str ("item-" ++ Nat.repr 1)) ∧
    ("item-" ++ Nat.repr 1 : String) ≠ "item-" ++ Nat.repr 2 := by
  constructor
  · refine ((normalizeLibraryItems_id_assignment 0 [entryNoId, entryNoId]).2.1 0 _ ?_).1 ?_
    · have hlen : (normalizeEntry 0 ([entryNoId, entryNoId].getD 0 Json.null) 0).length = 1 :=
        rfl
      cases hl : normalizeEntry 0 ([entryNoId, entryNoId].getD 0 Json.null) 0 with
      | nil => rw [hl] at hlen; simp at hlen
      | cons a t => simp
    · intro s hs
      rw [show ([entryNoId, entryNoId].getD 0 Json.null).get "id" = none from rfl] at hs
      cases hs
  · exact (normalizeLibraryItems_id_assignment 0 [entryNoId, entryNoId]).2.2 0 1 (by omega)

/-- Counterexample to C7 as stated: two entries carrying the same non-blank
explicit string id `" x "` do not retain that id unchanged — the normalizer
stores the trimmed `"x"` for both. -/
theorem normalize_trims_explicit_ids :
    (normalizeLibraryItems 0 [paddedIdEntry, paddedIdEntry]).map (fun r => Json.get r "id")
        = [some (.str "x"), some (.str "x")] ∧
    Json.get paddedIdEntry "id" = some (.str " x ") ∧
    ("x" : String) ≠ " x " :=
  ⟨by rfl, rfl, by decide⟩

/-- Unfolding of `normalizedEntryName` on a present entry record. -/
lemma normalizedEntryName_eq (e : Json) (i : Nat) :
    normalizedEntryName (some e) i = match e.get "name" with
      | some (.str s) => if (jsTrim s) ≠ "" then (jsTrim s) else "Figura " ++ Nat.repr (i + 1)
      | _ => "Figura " ++ Nat.repr (i + 1) := rfl

/-- Unfolding of `normalizedEntryStatus` on a present entry record. -/
lemma normalizedEntryStatus_eq (e : Json) :
    normalizedEntryStatus (some e) = match e.get "status" with
      | some (.str s) => if (jsTrim s) ≠ "" then (jsTrim s) else "published"
      | _ => "published" := rfl

/-- Unfolding of `normalizedEntryCreated` on a present entry record. -/
lemma normalizedEntryCreated_eq (e : Json) (now : Rat) (i : Nat) :
    normalizedEntryCreated (some e) now i = match e.get "created" with
      | some (.num q) => q
      | _ => now + (i : Rat) := rfl

/-- Re-writing a key to the value it already holds is the identity (keys are
unduplicated, as `JSON.parse` guarantees). -/
lemma setField_eq_self {fields : List (String × Json)} {k : String} {v : Json}
    (hget : getKV fields k = some v) (hnd : (fields.map Prod.fst).Nodup) :
    setField fields k v = fields := by
  induction fields with
  | nil => simp [getKV] at hget
  | cons kv rest ih =>
    obtain ⟨k₀, v₀⟩ := kv
    by_cases hk : k₀ = k
    · subst hk
      have hv : v₀ = v := by simpa [getKV] using hget
      subst hv
      have hnotin : ∀ kv ∈ rest, ¬(kv.1 = k₀) := by
        intro kv hkv hc
        have hmem : k₀ ∈ rest.map Prod.fst := by
          rw [← hc]
          exact List.mem_map_of_mem _ hkv
        exact (List.nodup_cons.mp (by simpa using hnd)).1 hmem
      unfold setField
      rw [if_pos (by simp), List.map_cons]
      have hhead : (if ((k₀, v₀) : String × Json).1 = k₀ then (k₀, v₀) else (k₀, v₀))
          = (k₀, v₀) := by simp
      rw [hhead]
      have hrest : rest.map (fun kv => if kv.1 = k₀ then (k₀, v₀) else kv) = rest := by
        calc rest.map (fun kv => if kv.1 = k₀ then (k₀, v₀) else kv)
            = rest.map id := List.map_congr_left fun kv hkv => if_neg (hnotin kv hkv)
          _ = rest := List.map_id rest
      rw [hrest]
    · have hget' : getKV rest k = some v := by
        have hstep : getKV ((k₀, v₀) :: rest) k = getKV rest k := by simp [getKV, hk]
        rw [hstep] at hget
        exact hget
      have hany : (rest.any fun kv => kv.1 = k) = true := any_of_getKV_some hget'
      have ihr := ih hget' (List.nodup_cons.mp (by simpa using hnd)).2
      unfold setField at ihr ⊢
      rw [if_pos hany] at ihr
      rw [if_pos (by simp [hany]), List.map_cons]
      have hhead : (if ((k₀, v₀) : String × Json).1 = k then (k, v) else (k₀, v₀))
          = (k₀, v₀) := by simp [hk]
      rw [hhead, ihr]

/-- A canonical entry passes through the normalizer unchanged. -/
lemma normalizeEntry_canonical (now : Rat) (e : Json) (i : Nat)
    (hc : CanonicalEntry e) : normalizeEntry now e i = [e] := by
  obtain ⟨⟨fields, rfl, hnd⟩, ⟨sid, hid, hidt, hidne⟩, ⟨sn, hn, hnt, hnne⟩,
    ⟨sst, hst, hstt, hstne⟩, ⟨q, hcr⟩, ⟨els, hel, helne, helrec⟩⟩ := hc
  have hfilter : els.filter isRecord = els := List.filter_eq_self.mpr helrec
  have helems : extractItemElements (Json.obj fields) = els := by
    simp only [extractItemElements, hel, extractRecordArray, hfilter]
    rw [if_pos (List.length_pos.mpr helne)]
  have hdef : normalizeEntry now (Json.obj fields) i =
      if (extractItemElements (Json.obj fields)).length = 0 then []
      else [Json.obj (setField (setField (setField (setField (setField
        fields "id" (Json.str (normalizedEntryId (some (Json.obj fields)) i)))
        "name" (Json.str (normalizedEntryName (some (Json.obj fields)) i)))
        "status" (Json.str (normalizedEntryStatus (some (Json.obj fields)))))
        "created" (Json.num (normalizedEntryCreated (some (Json.obj fields)) now i)))
        "elements" (Json.arr (extractItemElements (Json.obj fields))))] := rfl
  have hvid : normalizedEntryId (some (Json.obj fields)) i = sid := by
    rw [normalizedEntryId_eq, hid]
    show (if (jsTrim sid) ≠ "" then (jsTrim sid) else "item-" ++ Nat.repr (i + 1)) = sid
    rw [hidt]
    simp [hidne]
  have hvn : normalizedEntryName (some (Json.obj fields)) i = sn := by
    rw [normalizedEntryName_eq, hn]
    show (if (jsTrim sn) ≠ "" then (jsTrim sn) else "Figura " ++ Nat.repr (i + 1)) = sn
    rw [hnt]
    simp [hnne]
  have hvst : normalizedEntryStatus (some (Json.obj fields)) = sst := by
    rw [normalizedEntryStatus_eq, hst]
    show (if (jsTrim sst) ≠ "" then (jsTrim sst) else "published") = sst
    rw [hstt]
    simp [hstne]
  have hvcr : normalizedEntryCreated (some (Json.obj fields)) now i = q := by
    rw [normalizedEntryCreated_eq, hcr]
  rw [hdef, helems, if_neg (by simp [List.length_pos.mpr helne, helne]), hvid, hvn, hvst, hvcr]
  rw [setField_eq_self (hid : getKV fields "id" = some (Json.str sid)) hnd,
    setField_eq_self (hn : getKV fields "name" = some (Json.str sn)) hnd,
    setField_eq_self (hst : getKV fields "status" = some (Json.str sst)) hnd,
    setField_eq_self (hcr : getKV fields "created" = some (Json.num q)) hnd,
    setField_eq_self (hel : getKV fields "elements" = some (Json.arr els)) hnd]

/-- The catalog mapping preserves each normalized record in its `raw` field. -/
lemma toCatalogAux_raw : ∀ (i : Nat) (l : List Json),
    importedRawRecords (toCatalogAux i l) = l := by
  intro i l
  induction l generalizing i with
  | nil => rfl
  | cons e rest ih =>
    simp only [toCatalogAux, importedRawRecords, List.map_cons]
    rw [show (toCatalogEntry e i).raw = e from rfl]
    have htail := ih (i + 1)
    simp only [importedRawRecords] at htail
    rw [htail]

/-- **C3** (amended): the record preserved in `raw` (and submitted by import)
is the normalized record — the original record with the derived id, name,
status, created and elements fields written over it.  Import submits exactly
those stored records; and whenever the original fields are already canonical
(non-blank trimmed strings, numeric created, non-empty record elements), the
normalized record equals the source record field for field, so import submits
exactly what the source declared. -/
theorem importSubmitsNormalizedRecords (now : Rat) (l entries : List Json)
    (hc : ∀ e ∈ entries, CanonicalEntry e) :
    importedRawRecords (toCatalogLibraryItems l) = l ∧
    normalizeLibraryItems now entries = entries ∧
    importedRawRecords (toCatalogLibraryItems (normalizeLibraryItems now entries)) = entries := by
  have hraw : ∀ m : List Json, importedRawRecords (toCatalogLibraryItems m) = m :=
    fun m => toCatalogAux_raw 0 m
  have hnorm : normalizeLibraryItems now entries = entries := by
    suffices h : ∀ (es : List Json) (i : Nat), (∀ e ∈ es, CanonicalEntry e) →
        normalizeAux now i es = es from h entries 0 hc
    intro es
    induction es with
    | nil => intro i _; rfl
    | cons e rest ih =>
      intro i hces
      show normalizeEntry now e i ++ normalizeAux now (i + 1) rest = e :: rest
      rw [normalizeEntry_canonical now e i (hces e (List.mem_cons_self e rest)),
        ih (i + 1) fun x hx => hces x (List.mem_cons_of_mem _ hx)]
      rfl
  exact ⟨hraw l, hnorm, by rw [hnorm]; exact hraw entries⟩

/-- Witness for C3: the canonical entry round-trips untouched through
normalization and the import path. -/
theorem importSubmitsNormalizedRecords_witness :
    importedRawRecords (toCatalogLibraryItems
        (normalizeLibraryItems 0 [canonicalEntryExample])) = [canonicalEntryExample] :=
  (importSubmitsNormalizedRecords 0 [] [canonicalEntryExample] (by
    intro e he
    rw [List.mem_singleton] at he
    subst he
    refine ⟨⟨_, rfl, by decide⟩, ⟨"a", rfl, rfl, by decide⟩, ⟨"N", rfl, rfl, by decide⟩,
      ⟨"published", rfl, rfl, by decide⟩, ⟨5, rfl⟩, ⟨[.obj []], rfl, by simp, ?_⟩⟩
    intro x hx
    rw [List.mem_singleton] at hx
    subst hx
    rfl)).2.2

/-- Counterexample to C3 as stated: the import path does not submit exactly
the record the source declared — the source id `" a "` is submitted trimmed as
`"a"` (the normalizer overrides the id, name, status, created and elements
fields on the stored raw record). -/
theorem import_submits_modified_record :
    (importedRawRecords (toCatalogLibraryItems
        (normalizeLibraryItems 0 [paddedIdSource]))).map (fun record => Json.get record "id")
        = [some (.str "a")] ∧
    Json.get paddedIdSource "id" = some (.str " a ") ∧
    ("a" : String) ≠ " a " :=
  ⟨rfl, rfl, by decide⟩

/-- Per element, the source's expansion fold equals folding over the covered
points. -/
lemma elementExpand_eq_foldl (acc : Option (Rat × Rat × Rat × Rat)) (element : Json) :
    elementExpand acc element = (coveredPointsSpec element).foldl expandBounds acc := rfl

/-- The full expansion fold equals folding over all covered points. -/
lemma foldl_elementExpand_eq (elements : List Json) :
    ∀ acc, elements.foldl elementExpand acc =
      (elements.flatMap coveredPointsSpec).foldl expandBounds acc := by
  induction elements with
  | nil => intro acc; rfl
  | cons e rest ih =>
    intro acc
    rw [List.foldl_cons, List.flatMap_cons, List.foldl_append, ih (elementExpand acc e),
      elementExpand_eq_foldl]

/-- The expansion fold over a finite accumulator acts componentwise as
running minima and maxima. -/
lemma foldl_expandBounds_some : ∀ (pts : List (Rat × Rat)) (a b c d : Rat),
    pts.foldl expandBounds (some (a, b, c, d)) =
      some ((pts.map Prod.fst).foldl min a, (pts.map Prod.snd).foldl min b,
        (pts.map Prod.fst).foldl max c, (pts.map Prod.snd).foldl max d) := by
  intro pts
  induction pts with
  | nil => intro a b c d; rfl
  | cons p rest ih =>
    intro a b c d
    rw [List.foldl_cons, show expandBounds (some (a, b, c, d)) p =
      some (min a p.1, min b p.2, max c p.1, max d p.2) from rfl, ih]
    rfl

/-- A running minimum is at most its seed. -/
lemma foldl_min_le_init : ∀ (l : List Rat) (a : Rat), l.foldl min a ≤ a := by
  intro l
  induction l with
  | nil => intro a; exact le_refl a
  | cons x rest ih =>
    intro a
    exact le_trans (ih (min a x)) (min_le_left a x)

/-- A running minimum is at most every member. -/
lemma foldl_min_le_mem : ∀ (l : List Rat) (a x : Rat), x ∈ l → l.foldl min a ≤ x := by
  intro l
  induction l with
  | nil => intro a x hx; cases hx
  | cons y rest ih =>
    intro a x hx
    rcases List.mem_cons.mp hx with rfl | hx
    · exact le_trans (foldl_min_le_init rest (min a x)) (min_le_right a x)
    · exact ih (min a y) x hx

/-- A running minimum is its seed or a member. -/
lemma foldl_min_mem_or : ∀ (l : List Rat) (a : Rat),
    l.foldl min a = a ∨ l.foldl min a ∈ l := by
  intro l
  induction l with
  | nil => intro a; exact Or.inl rfl
  | cons y rest ih =>
    intro a
    rcases ih (min a y) with h | h
    · rcases min_choice a y with hc | hc
      · exact Or.inl (by rw [List.foldl_cons, h, hc])
      · exact Or.inr (by rw [List.foldl_cons, h, hc]; exact List.mem_cons_self y rest)
    · exact Or.inr (List.mem_cons_of_mem y h)

/-- A running maximum is at least its seed. -/
lemma foldl_max_init_le : ∀ (l : List Rat) (a : Rat), a ≤ l.foldl max a := by
  intro l
  induction l with
  | nil => intro a; exact le_refl a
  | cons x rest ih =>
    intro a
    exact le_trans (le_max_left a x) (ih (max a x))

/-- A running maximum is at least every member. -/
lemma foldl_max_mem_le : ∀ (l : List Rat) (a x : Rat), x ∈ l → x ≤ l.foldl max a := by
  intro l
  induction l with
  | nil => intro a x hx; cases hx
  | cons y rest ih =>
    intro a x hx
    rcases List.mem_cons.mp hx with rfl | hx
    · exact le_trans (le_max_right a x) (foldl_max_init_le rest (max a x))
    · exact ih (max a y) x hx

/-- A running maximum is its seed or a member. -/
lemma foldl_max_mem_or : ∀ (l : List Rat) (a : Rat),
    l.foldl max a = a ∨ l.foldl max a ∈ l := by
  intro l
  induction l with
  | nil => intro a; exact Or.inl rfl
  | cons y rest ih =>
    intro a
    rcases ih (max a y) with h | h
    · rcases max_choice a y with hc | hc
      · exact Or.inl (by rw [List.foldl_cons, h, hc])
      · exact Or.inr (by rw [List.foldl_cons, h, hc]; exact List.mem_cons_self y rest)
    · exact Or.inr (List.mem_cons_of_mem y h)

/-- **C9**: the preview bounds computation returns the fixed default box when
no finite bounds are found (which happens exactly for empty input, since every
element contributes finite corner points), and otherwise returns the box whose
raw extents over all covered points (each element's top-left and bottom-right
corners plus its absolute point-list geometry) are enlarged to at least 40 by
30 and then padded by 12 units on each side: width `max (maxX-minX) 40 + 24`,
height `max (maxY-minY) 30 + 24`, origin shifted by `-12`. -/
theorem computeItemPreviewBounds_spec (elements : List Json) :
    (elements = [] → computeItemPreviewBounds elements =
      { minX := 0, minY := 0, width := 120, height := 84 }) ∧
    (elements ≠ [] →
      ∃ mnX mnY mxX mxY,
        mnX ∈ (elements.flatMap coveredPointsSpec).map Prod.fst ∧
        (∀ u ∈ (elements.flatMap coveredPointsSpec).map Prod.fst, mnX ≤ u) ∧
        mnY ∈ (elements.flatMap coveredPointsSpec).map Prod.snd ∧
        (∀ u ∈ (elements.flatMap coveredPointsSpec).map Prod.snd, mnY ≤ u) ∧
        mxX ∈ (elements.flatMap coveredPointsSpec).map Prod.fst ∧
        (∀ u ∈ (elements.flatMap coveredPointsSpec).map Prod.fst, u ≤ mxX) ∧
        mxY ∈ (elements.flatMap coveredPointsSpec).map Prod.snd ∧
        (∀ u ∈ (elements.flatMap coveredPointsSpec).map Prod.snd, u ≤ mxY) ∧
        computeItemPreviewBounds elements =
          { minX := mnX - 12, minY := mnY - 12,
            width := max (mxX - mnX) 40 + 24, height := max (mxY - mnY) 30 + 24 }) := by
  constructor
  · rintro rfl
    rfl
  · intro hne
    have hcovne : elements.flatMap coveredPointsSpec ≠ [] := by
      cases elements with
      | nil => exact absurd rfl hne
      | cons e rest =>
        rw [List.flatMap_cons]
        simp [coveredPointsSpec]
    obtain ⟨p, ps, hpp⟩ := List.exists_cons_of_ne_nil hcovne
    have hfold : elements.foldl elementExpand none =
        some ((ps.map Prod.fst).foldl min p.1, (ps.map Prod.snd).foldl min p.2,
          (ps.map Prod.fst).foldl max p.1, (ps.map Prod.snd).foldl max p.2) := by
      rw [foldl_elementExpand_eq elements none, hpp, List.foldl_cons,
        show expandBounds none p = some (p.1, p.2, p.1, p.2) from rfl,
        foldl_expandBounds_some]
    refine ⟨(ps.map Prod.fst).foldl min p.1, (ps.map Prod.snd).foldl min p.2,
      (ps.map Prod.fst).foldl max p.1, (ps.map Prod.snd).foldl max p.2,
      ?_, ?_, ?_, ?_, ?_, ?_, ?_, ?_, ?_⟩
    · rw [hpp, List.map_cons]
      rcases foldl_min_mem_or (ps.map Prod.fst) p.1 with h | h
      · rw [h]; exact List.mem_cons_self _ _
      · exact List.mem_cons_of_mem _ h
    · rw [hpp, List.map_cons]
      intro u hu
      rcases List.mem_cons.mp hu with rfl | hu
      · exact foldl_min_le_init _ _
      · exact foldl_min_le_mem _ _ _ hu
    · rw [hpp, List.map_cons]
      rcases foldl_min_mem_or (ps.map Prod.snd) p.2 with h | h
      · rw [h]; exact List.mem_cons_self _ _
      · exact List.mem_cons_of_mem _ h
    · rw [hpp, List.map_cons]
      intro u hu
      rcases List.mem_cons.mp hu with rfl | hu
      · exact foldl_min_le_init _ _
      · exact foldl_min_le_mem _ _ _ hu
    · rw [hpp, List.map_cons]
      rcases foldl_max_mem_or (ps.map Prod.fst) p.1 with h | h
      · rw [h]; exact List.mem_cons_self _ _
      · exact List.mem_cons_of_mem _ h
    · rw [hpp, List.map_cons]
      intro u hu
      rcases List.mem_cons.mp hu with rfl | hu
      · exact foldl_max_init_le _ _
      · exact foldl_max_mem_le _ _ _ hu
    · rw [hpp, List.map_cons]
      rcases foldl_max_mem_or (ps.map Prod.snd) p.2 with h | h
      · rw [h]; exact List.mem_cons_self _ _
      · exact List.mem_cons_of_mem _ h
    · rw [hpp, List.map_cons]
      intro u hu
      rcases List.mem_cons.mp hu with rfl | hu
      · exact foldl_max_init_le _ _
      · exact foldl_max_mem_le _ _ _ hu
    · simp only [computeItemPreviewBounds, hfold]
      have h24 : (12 : Rat) * 2 = 24 := by norm_num
      rw [h24]

/-- Witness for C9: the default box on empty input, and the padded
min-enforced box on a concrete rectangle. -/
theorem computeItemPreviewBounds_spec_witness :
    computeItemPreviewBounds [] = { minX := 0, minY := 0, width := 120, height := 84 } ∧
    (∃ mnX mnY mxX mxY,
      mnX ∈ ([rectElementExample].flatMap coveredPointsSpec).map Prod.fst ∧
      (∀ u ∈ ([rectElementExample].flatMap coveredPointsSpec).map Prod.fst, mnX ≤ u) ∧
      mnY ∈ ([rectElementExample].flatMap coveredPointsSpec).map Prod.snd ∧
      (∀ u ∈ ([rectElementExample].flatMap coveredPointsSpec).map Prod.snd, mnY ≤ u) ∧
      mxX ∈ ([rectElementExample].flatMap coveredPointsSpec).map Prod.fst ∧
      (∀ u ∈ ([rectElementExample].flatMap coveredPointsSpec).map Prod.fst, u ≤ mxX) ∧
      mxY ∈ ([rectElementExample].flatMap coveredPointsSpec).map Prod.snd ∧
      (∀ u ∈ ([rectElementExample].flatMap coveredPointsSpec).map Prod.snd, u ≤ mxY) ∧
      computeItemPreviewBounds [rectElementExample] =
        { minX := mnX - 12, minY := mnY - 12,
          width := max (mxX - mnX) 40 + 24, height := max (mxY - mnY) 30 + 24 }) :=
  ⟨(computeItemPreviewBounds_spec []).1 rfl,
    (computeItemPreviewBounds_spec [rectElementExample]).2 (by simp)⟩
